import Mathlib

/-!
# Verification of the ROTC attendance dashboard core

Shallow embedding of the computational core of the `ROTC-web-app`
repository:

* `movingAverage` — the smoothed-series generator of
  `app/static/js/chart_controls.js` (client-side moving average used by
  the attendance chart), embedded faithfully including its JavaScript
  value coercions (`Array.isArray` guard, `Number(b) || 0`,
  `Array.prototype.slice`, division guard).
* the Attendance Aggregator and Leaderboard Ranker, which run on the
  server and are not part of this repository's source tree; they are
  modelled from the specification.

JavaScript numbers are modelled as rationals (`Rat`); array indices and
window sizes as integers (`Int` — the window size comes from
`parseInt`).
-/

namespace ROTC

/-- A JavaScript value as seen by `movingAverage`'s element coercion
`Number(b) || 0`: either a value whose `Number(·)` coercion is the
finite number `q` (this includes plain numbers and numeric strings), or
a value whose coercion is `NaN` (e.g. `"abc"`, `undefined`, `{}`).
Infinities are outside the model. -/
inductive JSVal where
  | num (q : ℚ)
  | nonNum
  deriving DecidableEq, Repr

/-- The coercion `Number(b) || 0` applied to an array element in
`movingAverage`: a finite number stays itself (`0` falls through `||`
to the literal `0`, which is the same value), everything `NaN`-valued
becomes `0`. -/
def numOrZero : JSVal → ℚ
  | .num q => q
  | .nonNum => 0

/-- The argument `data` of `movingAverage`: an arbitrary JavaScript
value, which is either an array of values or not an array
(`Array.isArray(data)` is the test the source performs). -/
inductive JSInput where
  | array (xs : List JSVal)
  | notArray
  deriving DecidableEq, Repr

/-- `Array.prototype.slice(start, stop)` for `0 ≤ start, stop`:
the elements at indices `start ≤ j < stop` (clamped to the array). -/
def jsSlice (xs : List JSVal) (start stop : ℕ) : List JSVal :=
  (xs.drop start).take (stop - start)

/-- Embedding of `movingAverage(data, windowSize)` from
`app/static/js/chart_controls.js`:

```js
function movingAverage(data, windowSize) {
  if (!Array.isArray(data)) return [];
  const out = [];
  for (let i = 0; i < data.length; i++) {
    const start = Math.max(0, i - windowSize + 1);
    const subset = data.slice(start, i + 1);
    const sum = subset.reduce((a, b) => a + (Number(b) || 0), 0);
    out.push(subset.length ? sum / subset.length : 0);
  }
  return out;
}
```

`Math.max(0, z)` on an integer `z` is rendered as `Int.toNat z` (both
clamp below at `0`). -/
def movingAverage (data : JSInput) (windowSize : ℤ) : List ℚ :=
  match data with
  | .notArray => []
  | .array xs =>
    (List.range xs.length).map (fun (i : ℕ) =>
      let start : ℕ := ((i : ℤ) - windowSize + 1).toNat
      let subset := jsSlice xs start (i + 1)
      let sum : ℚ := subset.foldl (fun a b => a + numOrZero b) 0
      if subset.length ≠ 0 then sum / subset.length else 0)

/-- The window mean the specification describes: the arithmetic mean of
the input values at the inclusive index window `[max (0, i-w+1), i]`. -/
def specWindowMean (xs : List ℚ) (w : ℤ) (i : ℕ) : ℚ :=
  let lo : ℕ := ((i : ℤ) - w + 1).toNat
  let win := (xs.drop lo).take (i + 1 - lo)
  win.sum / win.length

/-! ## Attendance Aggregator and Leaderboard Ranker (server-side)

The aggregator and ranker run on the server (`/api/att/leaderboard`,
`/api/att/day`, …); the repository only contains their callers, so they
are modelled from the specification (§4.1, §4.2). Dates are modelled in
an already-parsed canonical comparable form (`ℕ`), so `InvalidDateError`
(a per-record parse failure) has no counterpart in the model. -/

/-- An explicitly recorded attendance status (`Absent` is implicit:
no record for a person on a known event date). -/
inductive Status where
  | present
  | ftr
  | excused
  deriving DecidableEq, Repr

/-- Modelled from the spec: `AttendanceRecord` — one person's outcome
for one event (§3). -/
structure AttendanceRecord where
  person_id : String
  cohort : String
  event_date : ℕ
  status : Status
  deriving DecidableEq, Repr

/-- Modelled from the spec: `PersonTotals` — aggregation result for one
person over a date range (§3). The derived `score` is kept out of this
structure and computed by the Ranker, where the cohort policy lives. -/
structure PersonTotals where
  person_id : String
  cohort : String
  present_count : ℕ
  ftr_count : ℕ
  excused_count : ℕ
  absent_count : ℕ
  sessions_count : ℕ
  deriving DecidableEq, Repr

/-- Argument-level failure of the Attendance Aggregator (§4.1, §7). -/
inductive AggError where
  | invalidRange
  deriving DecidableEq, Repr

/-- Modelled from the spec: one step of the Aggregator's per-person
loop (§4.1): "for each known event date in range: if a record exists,
increment the matching counter; if none exists, increment
`absent_count`." -/
def countDate (records : List AttendanceRecord) (pid : String)
    (t : PersonTotals) (d : ℕ) : PersonTotals :=
  match records.find? (fun r => r.person_id == pid && r.event_date == d) with
  | some r =>
    match r.status with
    | .present => { t with present_count := t.present_count + 1 }
    | .ftr => { t with ftr_count := t.ftr_count + 1 }
    | .excused => { t with excused_count := t.excused_count + 1 }
  | none => { t with absent_count := t.absent_count + 1 }

/-- Modelled from the spec: the Aggregator's per-person totals (§4.1):
all counters start at zero and one counter is incremented per known
event date in range; `sessions_count` is the number of known event
dates in range. The cohort is taken from any record of the person. -/
def personTotals (records : List AttendanceRecord) (pid : String)
    (datesInRange : List ℕ) : PersonTotals :=
  datesInRange.foldl (countDate records pid)
    { person_id := pid
      cohort := ((records.find? (fun r => r.person_id == pid)).map
        AttendanceRecord.cohort).getD ""
      present_count := 0
      ftr_count := 0
      excused_count := 0
      absent_count := 0
      sessions_count := datesInRange.length }

/-- Modelled from the spec: the Attendance Aggregator (§4.1, §6).
`from > to` fails with `InvalidRangeError`; otherwise records are
filtered to the inclusive range `[dfrom, dto]` and one `PersonTotals`
is produced per person of the roster, provided the person has at least
one known event in range (with a fixed shared event calendar this is
the same condition for every person). -/
def aggregate (records : List AttendanceRecord) (dfrom dto : ℕ)
    (roster : List String) (eventDates : List ℕ) :
    Except AggError (List PersonTotals) :=
  if dto < dfrom then .error .invalidRange
  else if (eventDates.filter (fun d => dfrom ≤ d && d ≤ dto)).isEmpty then .ok []
  else .ok (roster.map (fun pid =>
    personTotals
      (records.filter (fun r => dfrom ≤ r.event_date && r.event_date ≤ dto))
      pid (eventDates.filter (fun d => dfrom ≤ d && d ≤ dto))))

/-- Output row of the Leaderboard Ranker (§3): rank is 1-based within
each cohort section. -/
structure LeaderboardEntry where
  rank : ℕ
  person_id : String
  cohort : String
  score : ℕ
  deriving DecidableEq, Repr

/-- Modelled from the spec: junior cohorts are MS1 and MS2 (§4.2). -/
def isJunior (c : String) : Bool :=
  c == "MS1" || c == "MS2"

/-- Modelled from the spec: the junior ranking order (§4.2) — `a` may
come before `b` iff `a` has more presents, or equal presents and more
sessions, or both equal and `a.person_id ≤ b.person_id`. -/
def juniorBefore (a b : PersonTotals) : Prop :=
  b.present_count < a.present_count ∨
    (a.present_count = b.present_count ∧
      (b.sessions_count < a.sessions_count ∨
        (a.sessions_count = b.sessions_count ∧ a.person_id ≤ b.person_id)))

/-- Modelled from the spec: the senior ranking order (§4.2) — `a` may
come before `b` iff `a` has fewer FTRs, or equal FTRs and more
presents, or both equal and `a.person_id ≤ b.person_id`. -/
def seniorBefore (a b : PersonTotals) : Prop :=
  a.ftr_count < b.ftr_count ∨
    (a.ftr_count = b.ftr_count ∧
      (b.present_count < a.present_count ∨
        (a.present_count = b.present_count ∧ a.person_id ≤ b.person_id)))

/-- The ranking order used for cohort `c`. -/
def cohortRel (c : String) : PersonTotals → PersonTotals → Prop :=
  if isJunior c then juniorBefore else seniorBefore

instance : DecidableRel juniorBefore := fun a b => by
  unfold juniorBefore; infer_instance

instance : DecidableRel seniorBefore := fun a b => by
  unfold seniorBefore; infer_instance

instance (c : String) : DecidableRel (cohortRel c) := fun a b => by
  unfold cohortRel
  split <;> infer_instance

/-- Modelled from the spec: the display score (§4.2) — junior cohorts
show `present_count`, senior cohorts a penalty-inverted
`sessions_count - ftr_count`. -/
def score (c : String) (t : PersonTotals) : ℕ :=
  if isJunior c then t.present_count else t.sessions_count - t.ftr_count

/-- Modelled from the spec: the sorted, truncated totals of one cohort
section (§4.2): group by cohort, sort with the cohort's ranking order,
keep the first `top_n`. -/
def rankedTotals (persons : List PersonTotals) (c : String) (top_n : ℕ) :
    List PersonTotals :=
  ((persons.filter (fun t => t.cohort == c)).insertionSort (cohortRel c)).take top_n

/-- Modelled from the spec: one cohort section of the leaderboard
(§4.2, §3): entries carry 1-based contiguous ranks assigned after
sorting and truncation. -/
def cohortBoard (persons : List PersonTotals) (c : String) (top_n : ℕ) :
    List LeaderboardEntry :=
  (rankedTotals persons c top_n).enum.map (fun p =>
    { rank := p.1 + 1
      person_id := p.2.person_id
      cohort := c
      score := score c p.2 })

/-- Argument-level failure of the Ranker (§4.2, §7). -/
inductive RankError where
  | invalidArgument
  deriving DecidableEq, Repr

/-- Modelled from the spec: the Leaderboard Ranker (§4.2, §6):
`top_n = 0` fails with `InvalidArgumentError`; otherwise one cohort
section per cohort in the fixed display order MS1..MS5. -/
def rankLeaderboard (persons : List PersonTotals) (top_n : ℕ) :
    Except RankError (List (String × List LeaderboardEntry)) :=
  if top_n = 0 then .error .invalidArgument
  else .ok (["MS1", "MS2", "MS3", "MS4", "MS5"].map
    (fun c => (c, cohortBoard persons c top_n)))

/-! ## Lemmas about the smoothed series generator -/

theorem movingAverage_array_length (xs : List JSVal) (w : ℤ) :
    (movingAverage (.array xs) w).length = xs.length := by
  simp [movingAverage]

theorem movingAverage_array_getD (xs : List JSVal) (w : ℤ) {i : ℕ}
    (hi : i < xs.length) :
    (movingAverage (.array xs) w).getD i 0 =
      (let subset := jsSlice xs (((i : ℤ) - w + 1).toNat) (i + 1)
       if subset.length ≠ 0 then
         subset.foldl (fun a b => a + numOrZero b) 0 / subset.length
       else 0) := by
  simp only [movingAverage, List.getD_eq_getElem?_getD, List.getElem?_map,
    List.getElem?_range hi]
  rfl

/-- The value the source computes at index `i` for a numeric array and
window `w ≥ 1` is the window mean of the specification. -/
theorem movingAverage_num_getD (xs : List ℚ) (w : ℤ) (hw : 1 ≤ w) {i : ℕ}
    (hi : i < xs.length) :
    (movingAverage (.array (xs.map .num)) w).getD i 0 = specWindowMean xs w i := by
  have hmap : i < (xs.map JSVal.num).length := by simpa using hi
  rw [movingAverage_array_getD _ w hmap]
  rw [specWindowMean]
  set s : ℕ := ((i : ℤ) - w + 1).toNat with hs_def
  have hs : s ≤ i := by omega
  have hsub : jsSlice (xs.map JSVal.num) s (i + 1)
      = ((xs.drop s).take (i + 1 - s)).map JSVal.num := by
    simp [jsSlice, List.map_take, List.map_drop]
  have hlen : ((xs.drop s).take (i + 1 - s)).length = i + 1 - s := by
    simp only [List.length_take, List.length_drop]
    omega
  have hne : ((xs.drop s).take (i + 1 - s)).length ≠ 0 := by omega
  simp only [hsub, List.length_map]
  rw [if_pos hne]
  congr 1
  rw [List.foldl_map, List.sum_eq_foldl]
  rfl

/-- Shared zero-window computation: for `w ≤ 0` the window slice is
empty at every index, so every output entry is the guard's `0`. -/
theorem movingAverage_zeros_of_nonpos (xs : List JSVal) (w : ℤ) (hw : w ≤ 0) :
    movingAverage (.array xs) w = List.replicate xs.length 0 := by
  rw [List.eq_replicate_iff]
  refine ⟨movingAverage_array_length xs w, ?_⟩
  intro b hb
  simp only [movingAverage, List.mem_map, List.mem_range] at hb
  obtain ⟨i, hi, rfl⟩ := hb
  have h0 : i + 1 - ((i : ℤ) - w + 1).toNat = 0 := by omega
  simp [jsSlice, h0]

/-- C1: for every array of numeric samples and every window size
`w ≥ 1`, `movingAverage` returns a same-length sequence whose value at
each index `i` is the arithmetic mean of the input values in the
inclusive window `[max (0, i-w+1), i]` (trailing, no look-ahead, early
points averaged over fewer samples). -/
theorem movingAverage_window_mean (xs : List ℚ) (w : ℤ) (hw : 1 ≤ w) :
    (movingAverage (.array (xs.map .num)) w).length = xs.length ∧
    ∀ i, i < xs.length →
      (movingAverage (.array (xs.map .num)) w).getD i 0 = specWindowMean xs w i :=
  ⟨by simpa using movingAverage_array_length (xs.map .num) w,
   fun _ hi => movingAverage_num_getD xs w hw hi⟩

set_option maxRecDepth 8000 in
/-- Witness for C1 at the spec's example: smoothing `[2, 4, 6]` with
window `2` yields `[2, 3, 5]`, and the window-mean description holds
there. -/
theorem movingAverage_window_mean_witness :
    movingAverage (.array (([2, 4, 6] : List ℚ).map .num)) 2 = [2, 3, 5] ∧
    (1 : ℤ) ≤ 2 ∧
    ((movingAverage (.array (([2, 4, 6] : List ℚ).map .num)) 2).length
        = ([2, 4, 6] : List ℚ).length ∧
      ∀ i, i < ([2, 4, 6] : List ℚ).length →
        (movingAverage (.array (([2, 4, 6] : List ℚ).map .num)) 2).getD i 0
          = specWindowMean [2, 4, 6] 2 i) :=
  ⟨by norm_num [movingAverage, jsSlice, numOrZero, List.range_succ,
      Int.toNat_of_nonpos, Int.toNat_of_nonneg],
   by norm_num,
   movingAverage_window_mean [2, 4, 6] 2 (by norm_num)⟩

/-- C4: smoothing with window size exactly `1` returns the input
sequence unchanged. -/
theorem movingAverage_window_one_id (xs : List ℚ) :
    movingAverage (.array (xs.map .num)) 1 = xs := by
  apply List.ext_getElem
  · simpa using movingAverage_array_length (xs.map .num) 1
  · intro i h1 h2
    have hD := movingAverage_num_getD xs 1 le_rfl h2
    rw [List.getD_eq_getElem _ _ h1] at hD
    rw [hD, specWindowMean]
    have hlo : ((i : ℤ) - 1 + 1).toNat = i := by omega
    simp only [hlo]
    have hdrop : xs.drop i = xs.get ⟨i, h2⟩ :: xs.drop (i + 1) :=
      List.drop_eq_getElem_cons h2
    rw [show i + 1 - i = 1 from by omega, hdrop]
    rw [show (xs.get ⟨i, h2⟩ :: xs.drop (i + 1)).take 1
        = [xs.get ⟨i, h2⟩] from rfl]
    simp

/-- C9: for every input that is not an array, `movingAverage` returns
the empty array (the `Array.isArray` guard), and the embedded function
is total on arbitrary inputs. -/
theorem movingAverage_notArray_eq_nil (w : ℤ) :
    movingAverage .notArray w = [] := rfl

/-- C10: for every input array and every window size `w ≤ 0`,
`movingAverage` returns, without any error, an array of the same
length as the input in which every entry is `0` (the window slice is
empty at every index). -/
theorem movingAverage_nonpos_window_zeros (xs : List JSVal) (w : ℤ) (hw : w ≤ 0) :
    movingAverage (.array xs) w = List.replicate xs.length 0 :=
  movingAverage_zeros_of_nonpos xs w hw

/-- Witness for C10 at `[5, NaN]`, `w = -1`. -/
theorem movingAverage_nonpos_window_zeros_witness :
    (-1 : ℤ) ≤ 0 ∧
    movingAverage (.array [.num 5, .nonNum]) (-1)
      = List.replicate ([JSVal.num 5, JSVal.nonNum] : List JSVal).length 0 :=
  ⟨by norm_num, movingAverage_nonpos_window_zeros [.num 5, .nonNum] (-1) (by norm_num)⟩

/-- C6 counterexample: at `data = [2]`, `windowSize = 0 < 1`, the
source does not fail with `InvalidArgumentError`: the call returns the
same-length list `[0]`. The source contains no window-size validation
and no throw at all. -/
theorem movingAverage_zero_window_counterexample :
    movingAverage (.array [.num 2]) 0 = [0] := by
  norm_num [movingAverage, jsSlice, numOrZero, List.range_succ,
    Int.toNat_of_nonpos, Int.toNat_of_nonneg]

/-- C6 (amended): for every input sequence and window size `w < 1`,
`movingAverage` raises no error: it returns an array of the same
length as the input in which every entry is `0`. -/
theorem movingAverage_window_lt_one_zeros (xs : List JSVal) (w : ℤ) (hw : w < 1) :
    movingAverage (.array xs) w = List.replicate xs.length 0 :=
  movingAverage_zeros_of_nonpos xs w (by omega)

/-- Witness for the amended C6 at `[7]`, `w = 0`. -/
theorem movingAverage_window_lt_one_zeros_witness :
    (0 : ℤ) < 1 ∧
    movingAverage (.array [.num 7]) 0
      = List.replicate ([JSVal.num 7] : List JSVal).length 0 :=
  ⟨by norm_num, movingAverage_window_lt_one_zeros [.num 7] 0 (by norm_num)⟩

/-- C7 counterexample: at input `[NaN-valued entry]` with window `1`,
the source does not fail with `InvalidInputError`: it produces the
output value `0` for that entry (the coercion `Number(b) || 0`). -/
theorem movingAverage_nonNum_counterexample :
    movingAverage (.array [JSVal.nonNum]) 1 = [0] := by
  norm_num [movingAverage, jsSlice, numOrZero, List.range_succ,
    Int.toNat_of_nonpos, Int.toNat_of_nonneg]

/-- C7 (amended): non-numeric entries are coerced to `0` by
`Number(b) || 0` rather than raising an error: the output equals the
output on the input with every entry replaced by its coercion. -/
theorem movingAverage_nonNum_coerced (xs : List JSVal) (w : ℤ) :
    movingAverage (.array xs) w
      = movingAverage (.array (xs.map (fun v => JSVal.num (numOrZero v)))) w := by
  simp only [movingAverage, List.length_map]
  apply List.map_congr_left
  intro i _
  have hsub : jsSlice (xs.map (fun v => JSVal.num (numOrZero v)))
      (((i : ℤ) - w + 1).toNat) (i + 1)
      = (jsSlice xs (((i : ℤ) - w + 1).toNat) (i + 1)).map
          (fun v => JSVal.num (numOrZero v)) := by
    simp [jsSlice, List.map_take, List.map_drop]
  simp only [hsub, List.length_map, List.foldl_map]
  rfl

/-! ## Lemmas about the Attendance Aggregator -/

/-- Sum of the four per-status counters of one person. -/
def countersSum (t : PersonTotals) : ℕ :=
  t.present_count + t.ftr_count + t.excused_count + t.absent_count

theorem countDate_countersSum (records : List AttendanceRecord) (pid : String)
    (t : PersonTotals) (d : ℕ) :
    countersSum (countDate records pid t d) = countersSum t + 1 := by
  unfold countDate
  cases records.find? (fun r => r.person_id == pid && r.event_date == d) with
  | none => simp only [countersSum]; omega
  | some r =>
    obtain ⟨p, ch, dt, st⟩ := r
    cases st <;> simp only [countersSum] <;> omega

theorem countDate_sessions (records : List AttendanceRecord) (pid : String)
    (t : PersonTotals) (d : ℕ) :
    (countDate records pid t d).sessions_count = t.sessions_count := by
  unfold countDate
  cases records.find? (fun r => r.person_id == pid && r.event_date == d) with
  | none => rfl
  | some r =>
    obtain ⟨p, ch, dt, st⟩ := r
    cases st <;> rfl

theorem foldl_countDate_countersSum (records : List AttendanceRecord)
    (pid : String) (dates : List ℕ) (t : PersonTotals) :
    countersSum (dates.foldl (countDate records pid) t)
      = countersSum t + dates.length := by
  induction dates generalizing t with
  | nil => simp
  | cons d ds ih =>
    rw [List.foldl_cons, ih, countDate_countersSum, List.length_cons]
    omega

theorem foldl_countDate_sessions (records : List AttendanceRecord)
    (pid : String) (dates : List ℕ) (t : PersonTotals) :
    (dates.foldl (countDate records pid) t).sessions_count
      = t.sessions_count := by
  induction dates generalizing t with
  | nil => rfl
  | cons d ds ih => rw [List.foldl_cons, ih, countDate_sessions]

/-- The per-person totals satisfy the counting invariant: exactly one
counter is incremented per known event date in range. -/
theorem personTotals_counter_invariant (records : List AttendanceRecord)
    (pid : String) (dates : List ℕ) :
    countersSum (personTotals records pid dates)
      = (personTotals records pid dates).sessions_count := by
  unfold personTotals
  rw [foldl_countDate_countersSum, foldl_countDate_sessions]
  simp [countersSum]

/-- C2: for every person in the output of the Attendance Aggregator,
over any non-empty roster and date range,
`present_count + ftr_count + excused_count + absent_count` equals
`sessions_count`. -/
theorem aggregate_counts_invariant (records : List AttendanceRecord)
    (dfrom dto : ℕ) (roster : List String) (eventDates : List ℕ)
    (out : List PersonTotals) (hroster : roster ≠ [])
    (hok : aggregate records dfrom dto roster eventDates = .ok out) :
    ∀ t ∈ out,
      t.present_count + t.ftr_count + t.excused_count + t.absent_count
        = t.sessions_count := by
  intro t ht
  rw [aggregate] at hok
  split at hok
  · exact absurd hok (by simp)
  · split at hok
    · injection hok with h
      subst h
      exact absurd ht (by simp)
    · injection hok with h
      subst h
      obtain ⟨pid, _, rfl⟩ := List.mem_map.mp ht
      exact personTotals_counter_invariant _ _ _

/-- The spec's §8 worked example: two records on one event date. -/
def egRecords : List AttendanceRecord :=
  [⟨"A", "MS1", 1, .present⟩, ⟨"B", "MS1", 1, .ftr⟩]

/-- Witness for C2 at the spec's §8 example: roster `[A, B]`, one event
date; A has `present = 1`, B has `ftr = 1`, both have `sessions = 1`. -/
theorem aggregate_counts_invariant_witness :
    (["A", "B"] : List String) ≠ [] ∧
    aggregate egRecords 1 1 ["A", "B"] [1]
      = .ok [⟨"A", "MS1", 1, 0, 0, 0, 1⟩, ⟨"B", "MS1", 0, 1, 0, 0, 1⟩] ∧
    ∀ t ∈ ([⟨"A", "MS1", 1, 0, 0, 0, 1⟩, ⟨"B", "MS1", 0, 1, 0, 0, 1⟩] :
        List PersonTotals),
      t.present_count + t.ftr_count + t.excused_count + t.absent_count
        = t.sessions_count :=
  ⟨by simp, by rfl,
   aggregate_counts_invariant egRecords 1 1 ["A", "B"] [1] _
     (by simp) (by rfl)⟩

/-- C8: a date range with `from` strictly after `to` fails with
`InvalidRangeError`; no per-person totals are produced. -/
theorem aggregate_invalid_range (records : List AttendanceRecord)
    (dfrom dto : ℕ) (roster : List String) (eventDates : List ℕ)
    (h : dto < dfrom) :
    aggregate records dfrom dto roster eventDates = .error .invalidRange := by
  rw [aggregate, if_pos h]

/-- Witness for C8 at `from = 2 > to = 1`. -/
theorem aggregate_invalid_range_witness :
    1 < 2 ∧
    aggregate egRecords 2 1 ["A", "B"] [1] = .error .invalidRange :=
  ⟨by norm_num,
   aggregate_invalid_range egRecords 2 1 ["A", "B"] [1] (by norm_num)⟩

/-! ## Lemmas about the Leaderboard Ranker -/

instance : IsTotal PersonTotals juniorBefore where
  total a b := by
    rcases Nat.lt_trichotomy a.present_count b.present_count with h | h | h
    · exact Or.inr (Or.inl h)
    · rcases Nat.lt_trichotomy a.sessions_count b.sessions_count with h2 | h2 | h2
      · exact Or.inr (Or.inr ⟨h.symm, Or.inl h2⟩)
      · rcases le_total a.person_id b.person_id with h3 | h3
        · exact Or.inl (Or.inr ⟨h, Or.inr ⟨h2, h3⟩⟩)
        · exact Or.inr (Or.inr ⟨h.symm, Or.inr ⟨h2.symm, h3⟩⟩)
      · exact Or.inl (Or.inr ⟨h, Or.inl h2⟩)
    · exact Or.inl (Or.inl h)

instance : IsTrans PersonTotals juniorBefore where
  trans a b c hab hbc := by
    rcases hab with h1 | ⟨e1, hab2⟩
    · rcases hbc with h2 | ⟨e2, _⟩
      · exact Or.inl (by omega)
      · exact Or.inl (by omega)
    · rcases hbc with h2 | ⟨e2, hbc2⟩
      · exact Or.inl (by omega)
      · refine Or.inr ⟨by omega, ?_⟩
        rcases hab2 with s1 | ⟨es1, hs1⟩
        · rcases hbc2 with s2 | ⟨es2, _⟩
          · exact Or.inl (by omega)
          · exact Or.inl (by omega)
        · rcases hbc2 with s2 | ⟨es2, hs2⟩
          · exact Or.inl (by omega)
          · exact Or.inr ⟨by omega, le_trans hs1 hs2⟩

instance : IsTotal PersonTotals seniorBefore where
  total a b := by
    rcases Nat.lt_trichotomy a.ftr_count b.ftr_count with h | h | h
    · exact Or.inl (Or.inl h)
    · rcases Nat.lt_trichotomy a.present_count b.present_count with h2 | h2 | h2
      · exact Or.inr (Or.inr ⟨h.symm, Or.inl h2⟩)
      · rcases le_total a.person_id b.person_id with h3 | h3
        · exact Or.inl (Or.inr ⟨h, Or.inr ⟨h2, h3⟩⟩)
        · exact Or.inr (Or.inr ⟨h.symm, Or.inr ⟨h2.symm, h3⟩⟩)
      · exact Or.inl (Or.inr ⟨h, Or.inl h2⟩)
    · exact Or.inr (Or.inl h)

instance : IsTrans PersonTotals seniorBefore where
  trans a b c hab hbc := by
    rcases hab with h1 | ⟨e1, hab2⟩
    · rcases hbc with h2 | ⟨e2, _⟩
      · exact Or.inl (by omega)
      · exact Or.inl (by omega)
    · rcases hbc with h2 | ⟨e2, hbc2⟩
      · exact Or.inl (by omega)
      · refine Or.inr ⟨by omega, ?_⟩
        rcases hab2 with s1 | ⟨es1, hs1⟩
        · rcases hbc2 with s2 | ⟨es2, _⟩
          · exact Or.inl (by omega)
          · exact Or.inl (by omega)
        · rcases hbc2 with s2 | ⟨es2, hs2⟩
          · exact Or.inl (by omega)
          · exact Or.inr ⟨by omega, le_trans hs1 hs2⟩

instance (c : String) : IsTotal PersonTotals (cohortRel c) where
  total a b := by
    unfold cohortRel
    split
    · exact IsTotal.total (r := juniorBefore) a b
    · exact IsTotal.total (r := seniorBefore) a b

instance (c : String) : IsTrans PersonTotals (cohortRel c) where
  trans a b c' hab hbc := by
    unfold cohortRel at hab hbc ⊢
    split at hab <;> rename_i hj
    · simp only [if_pos hj]
      exact IsTrans.trans (r := juniorBefore) a b c' hab (by
        simpa only [if_pos hj] using hbc)
    · simp only [if_neg hj]
      exact IsTrans.trans (r := seniorBefore) a b c' hab (by
        simpa only [if_neg hj] using hbc)

theorem cohortRel_eq_junior {c : String} (h : isJunior c = true) :
    cohortRel c = juniorBefore := by
  simp [cohortRel, h]

theorem cohortRel_eq_senior {c : String} (h : isJunior c = false) :
    cohortRel c = seniorBefore := by
  simp [cohortRel, h]

/-- Each cohort section of the ranking is sorted by the cohort's
ranking order (sortedness survives truncation to `top_n`). -/
theorem rankedTotals_pairwise (persons : List PersonTotals) (c : String)
    (top_n : ℕ) :
    (rankedTotals persons c top_n).Pairwise (cohortRel c) := by
  unfold rankedTotals
  exact List.Pairwise.sublist (List.take_sublist _ _)
    (List.sorted_insertionSort (cohortRel c) _)

/-- C3: junior cohorts (MS1, MS2) are ordered by descending
`present_count`, ties broken by descending `sessions_count`, then
ascending `person_id`; senior cohorts (MS3, MS4, MS5) are ordered by
ascending `ftr_count`, ties broken by descending `present_count`, then
ascending `person_id`. -/
theorem rankedTotals_cohort_order (persons : List PersonTotals) (c : String)
    (top_n : ℕ) :
    ((c = "MS1" ∨ c = "MS2") →
      (rankedTotals persons c top_n).Pairwise juniorBefore) ∧
    ((c = "MS3" ∨ c = "MS4" ∨ c = "MS5") →
      (rankedTotals persons c top_n).Pairwise seniorBefore) := by
  constructor
  · intro hc
    have hj : isJunior c = true := by rcases hc with rfl | rfl <;> rfl
    have h := rankedTotals_pairwise persons c top_n
    rwa [cohortRel_eq_junior hj] at h
  · intro hc
    have hj : isJunior c = false := by rcases hc with rfl | rfl | rfl <;> rfl
    have h := rankedTotals_pairwise persons c top_n
    rwa [cohortRel_eq_senior hj] at h

/-- Example totals for the Ranker witnesses: two MS1 and two MS3
cadets. -/
def egTotals : List PersonTotals :=
  [⟨"Baker", "MS1", 3, 0, 0, 1, 4⟩,
   ⟨"Able", "MS1", 4, 0, 0, 0, 4⟩,
   ⟨"Carter", "MS3", 1, 2, 0, 1, 4⟩,
   ⟨"Davis", "MS3", 3, 0, 1, 0, 4⟩]

/-- Witness for C3: the MS1 section is junior-ordered and the MS3
section is senior-ordered on the example totals. -/
theorem rankedTotals_cohort_order_witness :
    (rankedTotals egTotals "MS1" 10).Pairwise juniorBefore ∧
    (rankedTotals egTotals "MS3" 10).Pairwise seniorBefore :=
  ⟨(rankedTotals_cohort_order egTotals "MS1" 10).1 (Or.inl rfl),
   (rankedTotals_cohort_order egTotals "MS3" 10).2 (Or.inl rfl)⟩

theorem enumFrom_map_fst_succ {α : Type} (l : List α) (k : ℕ) :
    (l.enumFrom k).map (fun p => p.1 + 1) = List.range' (k + 1) l.length := by
  induction l generalizing k with
  | nil => rfl
  | cons x xs ih => simp [List.enumFrom_cons, List.range'_succ, ih]

/-- C5: the rank numbers of every cohort leaderboard section are
exactly `1, 2, …, length` — contiguous starting at `1`, strictly
increasing, no two entries share a rank, and they restart at `1` in
each cohort section (the board is computed per cohort). -/
theorem cohortBoard_ranks_contiguous (persons : List PersonTotals)
    (c : String) (top_n : ℕ) :
    (cohortBoard persons c top_n).map LeaderboardEntry.rank
      = List.range' 1 (cohortBoard persons c top_n).length := by
  unfold cohortBoard
  rw [List.map_map]
  have h := enumFrom_map_fst_succ (rankedTotals persons c top_n) 0
  simpa [List.enum, Function.comp] using h

end ROTC
